import Mathlib

/-!
Verification of the adaptive quota-limited job scheduler (`QuotaLimiter`)
and the dirty-state retry orchestrator (`DownloadPlugin.handleDirtyFiles`)
of wikiGDrive, shallowly embedded from `src/google/QuotaLimiter.js`.

Timestamps (`+new Date() / 1000` in the source) enter the logic only
through subtraction and order comparison, so the clock is modelled at
integer resolution (`ℤ`); the `queries` / `seconds` fields of a rate limit
are integers (`Math.floor(x / 2)` on an integer `x` is `Int.fdiv x 2`).
A job's unset `ts` field is modelled as `none`; jobs are only ever started
at times `now` with `now - limit.ts >= DELAY_AFTER_ERROR = 5 > 0`, so the
JavaScript falsiness of `ts === 0` never diverges from the `Option` model
on reachable traces.
-/

namespace WikiGDrive

/-- Source constant `CONCURRENCY = 16` (QuotaLimiter.js line 3). -/
def CONCURRENCY : ℕ := 16

/-- Source constant `DELAY_AFTER_ERROR = 5` (QuotaLimiter.js line 4). -/
def DELAY_AFTER_ERROR : ℤ := 5

/-- The current rate limit object `{ queries, seconds, ts }` as built by
`setLimit`. -/
structure Limit where
  queries : ℤ
  seconds : ℤ
  ts : ℤ
deriving DecidableEq, Repr

/-- One queue entry as built by `addJob` / mutated by `handleQueue`:
`ts` is the admission timestamp (unset until admitted), `hasFunc` the
truthiness of `job.func`, `done` the flag set at creation (the source
never sets it to `true`). -/
structure Job where
  ts : Option ℤ
  hasFunc : Bool
  done : Bool
deriving DecidableEq, Repr

/-- The mutable state of a `QuotaLimiter` instance. -/
structure QuotaLimiter where
  jobs : List Job
  running : ℕ
  currentLimit : Option Limit
  initialLimit : Option (ℤ × ℤ)
deriving DecidableEq, Repr

/-- The state right after `new QuotaLimiter()` with no initial jobs. -/
def initQL : QuotaLimiter := ⟨[], 0, none, none⟩

/-- `setLimit(queries, seconds)` at wall-clock time `now`: rejects
non-positive values, rejects updates within `DELAY_AFTER_ERROR` seconds of
the recorded `ts` of the current limit, and stamps the very first limit
with `ts: 0` (source comment: because of DELAY_AFTER_ERROR in handleQueue).
Returns the new state and the boolean result. -/
def setLimit (q s : ℤ) (now : ℤ) (st : QuotaLimiter) : QuotaLimiter × Bool :=
  if s ≤ 0 then (st, false)
  else if q ≤ 0 then (st, false)
  else
    match st.currentLimit with
    | some l =>
      if now - l.ts < DELAY_AFTER_ERROR then (st, false)
      else ({ st with currentLimit := some ⟨q, s, now⟩ }, true)
    | none => ({ st with currentLimit := some ⟨q, s, 0⟩ }, true)

/-- `setInitialLimit(queries, seconds)`: records the initial limit and
delegates to `setLimit` (ignoring its result). -/
def setInitialLimit (q s : ℤ) (now : ℤ) (st : QuotaLimiter) : QuotaLimiter :=
  (setLimit q s now { st with initialLimit := some (q, s) }).1

/-- `slowdown()`: propose half the queries, and half the seconds unless the
window is already down to one second. Call sites guard on `currentLimit`
being set (accessing it unset would throw in the source). -/
def slowdown (now : ℤ) (st : QuotaLimiter) : QuotaLimiter :=
  match st.currentLimit with
  | none => st
  | some l =>
    let nq := Int.fdiv l.queries 2
    let ns := if 1 < l.seconds then Int.fdiv l.seconds 2 else 1
    (setLimit nq ns now st).1

/-- `speedup()`: propose one more query at the same window. -/
def speedup (now : ℤ) (st : QuotaLimiter) : QuotaLimiter :=
  match st.currentLimit with
  | none => st
  | some l => (setLimit (l.queries + 1) l.seconds now st).1

/-- The filter predicate of `removeOlderThan`: keep a job when its `ts` is
unset or at least `minTime`. -/
def jobKeep (minTime : ℤ) (j : Job) : Bool :=
  match j.ts with
  | none => true
  | some t => decide (minTime ≤ t)

/-- `removeOlderThan(minTime)`: `jobs.filter(job => !job.ts || job.ts >= minTime)`. -/
def removeOlderThan (minTime : ℤ) (jobs : List Job) : List Job :=
  jobs.filter (jobKeep minTime)

/-- The window-membership predicate of `calculateAvailableQuota`:
`!!job.ts && (now - job.ts) < limit.seconds`. -/
def inWindow (now : ℤ) (sec : ℤ) (j : Job) : Bool :=
  match j.ts with
  | none => false
  | some t => decide (now - t < sec)

/-- Number of queue entries started within the current window. -/
def startedWithin (now : ℤ) (sec : ℤ) (jobs : List Job) : ℕ :=
  (jobs.filter (inWindow now sec)).length

/-- `calculateAvailableQuota(now)`: start from the concurrency ceiling and
cap by `limit.queries - quotaUsed`. -/
def calculateAvailableQuota (now : ℤ) (l : Limit) (jobs : List Job) : ℤ :=
  let availableQuota : ℤ := (CONCURRENCY : ℤ)
  let quotaUsed : ℤ := (startedWithin now l.seconds jobs : ℤ)
  if availableQuota > l.queries - quotaUsed then l.queries - quotaUsed
  else availableQuota

/-- One iteration of the admission loop body: find the first job with no
`ts` and a `func`, and mark it started at `now`. `none` when no such job
exists. -/
def startFirst (now : ℤ) : List Job → Option (List Job)
  | [] => none
  | j :: rest =>
    if j.ts.isNone && j.hasFunc then some ({ j with ts := some now } :: rest)
    else (startFirst now rest).map (j :: ·)

/-- The `while (availableQuota > 0)` admission loop of `handleQueue`: the
fuel is the available quota, each admission increments `running`. -/
def admitLoop (now : ℤ) : ℕ → List Job → ℕ → List Job × ℕ
  | 0, jobs, running => (jobs, running)
  | fuel + 1, jobs, running =>
    match startFirst now jobs with
    | none => (jobs, running)
    | some jobs2 => admitLoop now fuel jobs2 (running + 1)

/-- `handleQueue()` at wall-clock time `now`: skip when more than
`CONCURRENCY` jobs are running, skip within `DELAY_AFTER_ERROR` seconds of
the limit's `ts`, evict entries older than the window, then admit up to the
available quota. The scheduler only runs with a limit set (reading
`currentLimit.ts` unset would throw in the source). -/
def handleQueue (now : ℤ) (st : QuotaLimiter) : QuotaLimiter :=
  if CONCURRENCY < st.running then st
  else
    match st.currentLimit with
    | none => st
    | some l =>
      if now - l.ts < DELAY_AFTER_ERROR then st
      else
        let jobs1 := removeOlderThan (now - l.seconds) st.jobs
        let avail := calculateAvailableQuota now l jobs1
        let p := admitLoop now avail.toNat jobs1 st.running
        { st with jobs := p.1, running := p.2 }

/-- The continuation attached to an admitted job: decrement `running`, and
on a failure flagged `isQuotaError` (with a limit set) trigger `slowdown`
first. -/
def jobComplete (isQuotaError : Bool) (now : ℤ) (st : QuotaLimiter) : QuotaLimiter :=
  let st1 := if isQuotaError && st.currentLimit.isSome then slowdown now st else st
  { st1 with running := st1.running - 1 }

/-- `addJob(func)`: push `{ done: false, func }` onto the queue. -/
def addJob (st : QuotaLimiter) : QuotaLimiter :=
  { st with jobs := st.jobs ++ [⟨none, true, false⟩] }

/-- External events driving a `QuotaLimiter` instance. -/
inductive Op
  | setInitialLimit (q s : ℤ) (now : ℤ)
  | setLimit (q s : ℤ) (now : ℤ)
  | addJob
  | tick (now : ℤ)
  | complete (isQuotaError : Bool) (now : ℤ)
  | slowdown (now : ℤ)
  | speedup (now : ℤ)

/-- One step of the event semantics. -/
def step (st : QuotaLimiter) : Op → QuotaLimiter
  | .setInitialLimit q s now => setInitialLimit q s now st
  | .setLimit q s now => (setLimit q s now st).1
  | .addJob => addJob st
  | .tick now => handleQueue now st
  | .complete e now => jobComplete e now st
  | .slowdown now => slowdown now st
  | .speedup now => speedup now st

/-- Run a sequence of events from the freshly constructed limiter. -/
def runOps (ops : List Op) : QuotaLimiter := ops.foldl step initQL

/-!
The retry orchestrator `DownloadPlugin.handleDirtyFiles`: enumerate dirty
files, build one promise per file according to its mime type, settle the
whole batch with `Promise.allSettled` (which waits for every promise and
never rejects), then re-enumerate and emit exactly one completion event.
A job's outcome is abstracted as a boolean per file id (`true` = the
underlying download succeeded); the store mutations `markClean` /
`markDirty` are effects `(id, newDirtyFlag)` applied to the files
structure.
-/

/-- The mime-type categories distinguished by `handleDirtyFiles`. -/
inductive GMime
  | conflict
  | redirect
  | drawing
  | document
  | other
deriving DecidableEq

/-- One entry of the files structure: identity, mime category, whether
`file.size` is defined, and the dirty flag. -/
structure GFile where
  id : ℕ
  mimeType : GMime
  hasSize : Bool
  dirty : Bool
deriving DecidableEq

/-- The store effect of one settled promise for a dirty file `f`, as a
pair (file id, new dirty flag): conflict and redirect files are marked
clean immediately; `downloadDiagram` / `downloadAsset` mark clean on
success and mark nothing on failure (the file keeps its dirty flag);
`downloadDocument` marks clean on success and marks dirty again on
failure; a dirty file of an unrecognized mime type with no `size` gets no
promise at all. -/
def jobEffect (oc : ℕ → Bool) (f : GFile) : Option (ℕ × Bool) :=
  match f.mimeType with
  | .conflict => some (f.id, false)
  | .redirect => some (f.id, false)
  | .drawing => if oc f.id then some (f.id, false) else none
  | .document => some (f.id, !(oc f.id))
  | .other =>
    if f.hasSize then (if oc f.id then some (f.id, false) else none) else none

/-- Apply one `markClean` / `markDirty` effect to the files structure. -/
def setDirtyFlag (i : ℕ) (b : Bool) (store : List GFile) : List GFile :=
  store.map (fun g => if g.id = i then { g with dirty := b } else g)

/-- Apply all effects of the settled batch, in settlement order. -/
def settleAll (store : List GFile) (effects : List (ℕ × Bool)) : List GFile :=
  effects.foldl (fun st e => setDirtyFlag e.1 e.2 st) store

/-- The dirty flag a file with id `i` and current flag `d` carries after a
list of effects is applied: the last effect addressed to `i` wins. -/
def applyEff (i : ℕ) (d : Bool) : List (ℕ × Bool) → Bool
  | [] => d
  | e :: es => applyEff i (if e.1 = i then e.2 else d) es

/-- The completion event emitted at the end of a pass: `clean` is
`download:clean`, `retryAsync` is `download:retry` emitted through
`process.nextTick` (deferred to a later event-loop turn, never a
synchronous recursion). -/
inductive Signal
  | clean
  | retryAsync
deriving DecidableEq

/-- One pass of `handleDirtyFiles` over the files structure, with `oc`
giving each file's download outcome: filter the dirty files, build and
settle their promises, then re-enumerate and choose the completion
signal. -/
def handleDirtyFiles (files : List GFile) (oc : ℕ → Bool) : List GFile × Signal :=
  let dirtyFiles := files.filter (fun f => f.dirty)
  let effects := dirtyFiles.filterMap (jobEffect oc)
  let store := settleAll files effects
  let dirtyAfter := store.filter (fun f => f.dirty)
  (store, if 0 < dirtyAfter.length then Signal.retryAsync else Signal.clean)

/-- The dirty flag a single file ends the pass with, as a function of that
file alone and its own outcome `b`: a clean file is untouched; a dirty
file takes its effect's flag, or keeps its flag when its promise leaves no
mark (or it got no promise). -/
def fate (f : GFile) (b : Bool) : Bool :=
  if f.dirty then
    match jobEffect (fun _ => b) f with
    | some e => e.2
    | none => f.dirty
  else f.dirty

/-- The dirty flag of the file with id `i` in the store, `none` when no
such file exists. -/
def getFlag (i : ℕ) (store : List GFile) : Option Bool :=
  (store.find? (fun g => g.id = i)).map (fun g => g.dirty)

/-!
Helper lemmas about `setLimit` and the positivity invariant.
-/

/-- Every limit ever stored has positive `queries` and `seconds`. -/
def LimitPos (st : QuotaLimiter) : Prop :=
  ∀ l, st.currentLimit = some l → 0 < l.queries ∧ 0 < l.seconds

/-- Separation discipline of the slowdown claim, decidable so that
witnesses can evaluate it: each overload signal arrives at least
`DELAY_AFTER_ERROR` seconds after the recorded timestamp of the
then-current limit. -/
def sepOKb (st : QuotaLimiter) : List ℤ → Bool
  | [] => true
  | t :: rest =>
    (match st.currentLimit with
     | some l => decide (DELAY_AFTER_ERROR ≤ t - l.ts)
     | none => true) && sepOKb (slowdown t st) rest

/-- Fold a sequence of overload (slowdown) signals over the state. -/
def slowTrace (ts : List ℤ) (st : QuotaLimiter) : QuotaLimiter :=
  ts.foldl (fun s t => slowdown t s) st

/-- Reference rule for one slowdown step, following the amended claim
wording (to be compared against the embedded code): halve `queries`, and
halve `seconds` unless it is already 1 (then pin it at 1) — but only when
the halved `queries` is still at least 1; otherwise the whole proposal is
rejected and the pair is unchanged. -/
def slowSpecStep (p : ℤ × ℤ) : ℤ × ℤ :=
  if 1 ≤ Int.fdiv p.1 2 then
    (Int.fdiv p.1 2, if 1 < p.2 then Int.fdiv p.2 2 else 1)
  else p

/-- Iterate the reference slowdown rule. -/
def slowSpec : ℕ → ℤ × ℤ → ℤ × ℤ
  | 0, p => p
  | n + 1, p => slowSpec n (slowSpecStep p)

lemma limitPos_setLimit {st : QuotaLimiter} (q s now : ℤ) (h : LimitPos st) :
    LimitPos (setLimit q s now st).1 := by
  intro l hl
  unfold setLimit at hl
  split_ifs at hl with hs hq
  · exact h l hl
  · exact h l hl
  · revert hl
    cases hcl : st.currentLimit with
    | none =>
      intro hl
      have hl2 : some (⟨q, s, 0⟩ : Limit) = some l := hl
      injection hl2 with h3
      subst h3
      exact ⟨show (0 : ℤ) < q by omega, show (0 : ℤ) < s by omega⟩
    | some l0 =>
      intro hl
      have hl2 : (if now - l0.ts < DELAY_AFTER_ERROR then (st, false)
          else ({ st with currentLimit := some ⟨q, s, now⟩ }, true)).1.currentLimit
          = some l := hl
      by_cases hcd : now - l0.ts < DELAY_AFTER_ERROR
      · rw [if_pos hcd] at hl2
        exact h l hl2
      · rw [if_neg hcd] at hl2
        have hl3 : some (⟨q, s, now⟩ : Limit) = some l := hl2
        injection hl3 with h3
        subst h3
        exact ⟨show (0 : ℤ) < q by omega, show (0 : ℤ) < s by omega⟩

lemma limitPos_currentLimit_eq {st st2 : QuotaLimiter}
    (h : st2.currentLimit = st.currentLimit) (hp : LimitPos st) : LimitPos st2 := by
  intro l hl
  exact hp l (h ▸ hl)

lemma handleQueue_currentLimit (now : ℤ) (st : QuotaLimiter) :
    (handleQueue now st).currentLimit = st.currentLimit := by
  unfold handleQueue
  split
  · rfl
  · split
    · rfl
    · split
      · rfl
      · rfl

lemma limitPos_slowdown {st : QuotaLimiter} (now : ℤ) (h : LimitPos st) :
    LimitPos (slowdown now st) := by
  unfold slowdown
  cases hcl : st.currentLimit with
  | none => exact h
  | some l => exact limitPos_setLimit _ _ _ h

lemma limitPos_step {st : QuotaLimiter} (h : LimitPos st) (op : Op) :
    LimitPos (step st op) := by
  cases op with
  | setInitialLimit q s now =>
    refine limitPos_setLimit q s now ?_
    intro l hl
    exact h l hl
  | setLimit q s now => exact limitPos_setLimit q s now h
  | addJob => exact h
  | tick now => exact limitPos_currentLimit_eq (handleQueue_currentLimit now st) h
  | complete e now =>
    intro l hl
    have hl2 : (if e && st.currentLimit.isSome then slowdown now st else st).currentLimit
        = some l := hl
    by_cases hc : (e && st.currentLimit.isSome) = true
    · rw [if_pos hc] at hl2
      exact limitPos_slowdown now h l hl2
    · rw [if_neg hc] at hl2
      exact h l hl2
  | slowdown now => exact limitPos_slowdown now h
  | speedup now =>
    show LimitPos (speedup now st)
    unfold speedup
    cases hcl : st.currentLimit with
    | none => exact h
    | some l => exact limitPos_setLimit _ _ _ h

lemma limitPos_runOps (ops : List Op) : LimitPos (runOps ops) := by
  have key : ∀ (ops : List Op) (st : QuotaLimiter), LimitPos st → LimitPos (ops.foldl step st) := by
    intro ops
    induction ops with
    | nil => intro st h; exact h
    | cons o rest ih => intro st h; exact ih _ (limitPos_step h o)
  refine key ops initQL ?_
  intro l hl
  simp [initQL] at hl

/-!
Claim theorems about `setLimit` and its callers.
-/

/-- C8: the RateWindow always satisfies `queries > 0` and `seconds > 0`
(over every event sequence from the initial state), and `setLimit` with a
non-positive proposal returns `false` and leaves the whole state
unchanged. -/
theorem c8_ratewindow_positive :
    (∀ (ops : List Op) (l : Limit),
        (runOps ops).currentLimit = some l → 0 < l.queries ∧ 0 < l.seconds) ∧
    (∀ (st : QuotaLimiter) (q s now : ℤ),
        q ≤ 0 ∨ s ≤ 0 → setLimit q s now st = (st, false)) := by
  constructor
  · intro ops l hl
    exact limitPos_runOps ops l hl
  · intro st q s now h
    unfold setLimit
    rcases h with hq | hs
    · by_cases hs2 : s ≤ 0
      · simp [hs2]
      · simp [hs2, hq]
    · simp [hs]

/-- C8 witness at a concrete event sequence and a concrete rejected
proposal. -/
theorem c8_witness :
    (0 < (10 : ℤ) ∧ 0 < (10 : ℤ)) ∧ setLimit 0 5 0 initQL = (initQL, false) :=
  ⟨c8_ratewindow_positive.1 [Op.setInitialLimit 10 10 0] ⟨10, 10, 0⟩ (by decide),
   c8_ratewindow_positive.2 initQL 0 5 0 (Or.inl (by decide))⟩

/-- C9: a `speedup` whose proposal is accepted (positive current limit,
cooldown elapsed) increases `queries` by exactly one, keeps `seconds`
unchanged, and re-stamps the limit at `now`. -/
theorem c9_speedup_increment :
    ∀ (st : QuotaLimiter) (l : Limit) (now : ℤ),
      st.currentLimit = some l → 0 < l.queries → 0 < l.seconds →
      DELAY_AFTER_ERROR ≤ now - l.ts →
      (speedup now st).currentLimit = some ⟨l.queries + 1, l.seconds, now⟩ := by
  intro st l now hcl hq hs hcd
  simp only [DELAY_AFTER_ERROR] at hcd
  simp only [speedup, hcl, setLimit, DELAY_AFTER_ERROR]
  rw [if_neg (by omega), if_neg (by omega), if_neg (by omega)]

/-- C9 witness: speeding up the freshly set 10-per-10 limit at time 7
yields 11 per 10 stamped at 7. -/
theorem c9_witness :
    (speedup 7 (runOps [Op.setInitialLimit 10 10 0])).currentLimit = some ⟨11, 10, 7⟩ :=
  c9_speedup_increment _ ⟨10, 10, 0⟩ 7 (by decide) (by decide) (by decide) (by decide)

/-- C5 (amended): an update proposed within `DELAY_AFTER_ERROR` seconds of
the RECORDED timestamp of the current limit is rejected and leaves the
state unchanged; once the cooldown relative to that recorded timestamp has
elapsed, a positive proposal is accepted and re-stamps the limit at the
current time. -/
theorem c5_update_cooldown :
    ∀ (st : QuotaLimiter) (l : Limit) (q s t : ℤ), st.currentLimit = some l →
      (t - l.ts < DELAY_AFTER_ERROR → setLimit q s t st = (st, false)) ∧
      (DELAY_AFTER_ERROR ≤ t - l.ts → 0 < q → 0 < s →
        setLimit q s t st = ({ st with currentLimit := some ⟨q, s, t⟩ }, true)) := by
  intro st l q s t hcl
  constructor
  · intro hcd
    simp only [setLimit, hcl]
    split_ifs <;> rfl
  · intro hcd hq hs
    simp only [DELAY_AFTER_ERROR] at hcd
    simp only [setLimit, hcl, DELAY_AFTER_ERROR]
    rw [if_neg (by omega), if_neg (by omega), if_neg (by omega)]

/-- C5 witness: with the current limit stamped at 0, a proposal at time 3
is rejected unchanged and a proposal at time 9 is accepted and
re-stamped. -/
theorem c5_witness :
    setLimit 7 7 3 (setLimit 10 10 0 initQL).1 = ((setLimit 10 10 0 initQL).1, false) ∧
    setLimit 7 7 9 (setLimit 10 10 0 initQL).1
      = ({ (setLimit 10 10 0 initQL).1 with currentLimit := some ⟨7, 7, 9⟩ }, true) :=
  ⟨(c5_update_cooldown (setLimit 10 10 0 initQL).1 ⟨10, 10, 0⟩ 7 7 3 (by decide)).1 (by decide),
   (c5_update_cooldown (setLimit 10 10 0 initQL).1 ⟨10, 10, 0⟩ 7 7 9 (by decide)).2
     (by decide) (by decide) (by decide)⟩

/-- C5 counterexample: the initial limit accepted at (wall-clock) time 100
is recorded with timestamp 0, so an update only 1 second later, at time
101, is NOT rejected: it replaces the window. This refutes the claim's
parenthetical that the cooldown also covers the initial update. -/
theorem c5_counterexample :
    (runOps [Op.setInitialLimit 10 10 100]).currentLimit = some ⟨10, 10, 0⟩ ∧
    (setLimit 20 10 101 (runOps [Op.setInitialLimit 10 10 100])).2 = true ∧
    (setLimit 20 10 101 (runOps [Op.setInitialLimit 10 10 100])).1.currentLimit
      = some ⟨20, 10, 101⟩ := by
  decide

/-- C3 (amended): after `setInitialLimit(q, s)` the window is stamped with
timestamp 0, so an immediate repeat of `setLimit(q, s)` is a no-op only
when the absolute wall-clock time is still below `DELAY_AFTER_ERROR`; from
time `DELAY_AFTER_ERROR` on it is accepted: `queries` and `seconds` are
unchanged but the stamp moves to the current time and `true` is
returned. -/
theorem c3_initial_then_setLimit :
    ∀ (q s t0 t1 : ℤ) (st : QuotaLimiter), 0 < q → 0 < s → st.currentLimit = none →
      (t1 < DELAY_AFTER_ERROR →
        setLimit q s t1 (setInitialLimit q s t0 st) = (setInitialLimit q s t0 st, false)) ∧
      (DELAY_AFTER_ERROR ≤ t1 →
        setLimit q s t1 (setInitialLimit q s t0 st)
          = ({ setInitialLimit q s t0 st with currentLimit := some ⟨q, s, t1⟩ }, true)) := by
  intro q s t0 t1 st hq hs hnone
  have h1 : setInitialLimit q s t0 st
      = { st with initialLimit := some (q, s), currentLimit := some ⟨q, s, 0⟩ } := by
    simp only [setInitialLimit, setLimit, hnone]
    rw [if_neg (by omega), if_neg (by omega)]
  constructor
  · intro hlt
    rw [h1]
    simp only [setLimit, DELAY_AFTER_ERROR] at hlt ⊢
    rw [if_neg (by omega), if_neg (by omega), if_pos (by omega)]
  · intro hge
    rw [h1]
    simp only [DELAY_AFTER_ERROR] at hge
    simp only [setLimit, DELAY_AFTER_ERROR]
    rw [if_neg (by omega), if_neg (by omega), if_neg (by omega)]

/-- C3 witness: with `setInitialLimit(10, 10)` called at time 100, a
repeat at time 2 (before `DELAY_AFTER_ERROR` of absolute time) is a no-op,
and a repeat at time 6 is accepted with only the stamp changed. -/
theorem c3_witness :
    setLimit 10 10 2 (setInitialLimit 10 10 100 initQL)
      = (setInitialLimit 10 10 100 initQL, false) ∧
    setLimit 10 10 6 (setInitialLimit 10 10 100 initQL)
      = ({ setInitialLimit 10 10 100 initQL with currentLimit := some ⟨10, 10, 6⟩ }, true) :=
  ⟨(c3_initial_then_setLimit 10 10 100 2 initQL (by decide) (by decide) rfl).1 (by decide),
   (c3_initial_then_setLimit 10 10 100 6 initQL (by decide) (by decide) rfl).2 (by decide)⟩

/-- C3 counterexample: `setInitialLimit(10, 10)` at wall-clock time 100
followed immediately (time 101, well within 5 seconds of the call) by
`setLimit(10, 10)` is NOT a no-op: the call is accepted (`true`) and the
update timestamp changes from 0 to 101. -/
theorem c3_counterexample :
    (setLimit 10 10 101 (runOps [Op.setInitialLimit 10 10 100])).2 = true ∧
    (setLimit 10 10 101 (runOps [Op.setInitialLimit 10 10 100])).1.currentLimit
      = some ⟨10, 10, 101⟩ ∧
    (runOps [Op.setInitialLimit 10 10 100]).currentLimit = some ⟨10, 10, 0⟩ := by
  decide

/-!
Queue eviction: claims C4 and C10.
-/

/-- C4 (amended): `removeOlderThan` keeps exactly the entries whose start
timestamp is unset or at least `minTime` — the `done` (resolved) flag
plays no role at all, so a started but unresolved entry older than the
window is evicted just the same. -/
theorem c4_eviction_ignores_resolution :
    ∀ (minTime : ℤ) (jobs : List Job) (j : Job),
      j ∈ removeOlderThan minTime jobs ↔
        j ∈ jobs ∧ ∀ t, j.ts = some t → minTime ≤ t := by
  intro minTime jobs j
  rw [removeOlderThan, List.mem_filter]
  constructor
  · rintro ⟨hm, hk⟩
    refine ⟨hm, ?_⟩
    intro t ht
    simp only [jobKeep, ht, decide_eq_true_eq] at hk
    exact hk
  · rintro ⟨hm, hk⟩
    refine ⟨hm, ?_⟩
    cases ht : j.ts with
    | none => simp [jobKeep, ht]
    | some t => simp [jobKeep, ht, hk t ht]

/-- C4 witness: a started entry at timestamp 3 is kept for `minTime = 2`
by the amended characterization. -/
theorem c4_witness :
    (⟨some 3, true, false⟩ : Job) ∈ removeOlderThan 2 [⟨some 3, true, false⟩] :=
  (c4_eviction_ignores_resolution 2 [⟨some 3, true, false⟩] ⟨some 3, true, false⟩).mpr
    ⟨by decide, by intro t ht; injection ht with h2; omega⟩

/-- C4 counterexample: the job admitted at time 5 under the 10-per-5
limit has not resolved (its completion never ran: `running` is still 1,
`done` is still `false`), yet the tick at time 15 evicts it, because
`removeOlderThan` never looks at resolution. The claim says such an entry
must remain in the queue. -/
theorem c4_counterexample :
    (runOps [Op.setInitialLimit 10 5 0, Op.addJob, Op.tick 5]).jobs
      = [⟨some 5, true, false⟩] ∧
    (runOps [Op.setInitialLimit 10 5 0, Op.addJob, Op.tick 5, Op.tick 15]).jobs = [] ∧
    (runOps [Op.setInitialLimit 10 5 0, Op.addJob, Op.tick 5, Op.tick 15]).running = 1 := by
  decide

/-- C10: `addJob` appends an entry with an unset start timestamp, and
`removeOlderThan` keeps every entry whose start timestamp is unset, for
every `minTime` — a submitted but not yet admitted job is never evicted. -/
theorem c10_unstarted_never_evicted :
    (∀ st : QuotaLimiter, (addJob st).jobs = st.jobs ++ [⟨none, true, false⟩]) ∧
    (∀ (minTime : ℤ) (jobs : List Job) (j : Job),
      j ∈ jobs → j.ts = none → j ∈ removeOlderThan minTime jobs) := by
  constructor
  · intro st
    rfl
  · intro minTime jobs j hm ht
    rw [removeOlderThan, List.mem_filter]
    exact ⟨hm, by simp [jobKeep, ht]⟩

/-- C10 witness: the entry just enqueued by `addJob` survives
`removeOlderThan 100`. -/
theorem c10_witness :
    (addJob initQL).jobs = [⟨none, true, false⟩] ∧
    (⟨none, true, false⟩ : Job) ∈ removeOlderThan 100 [⟨none, true, false⟩] :=
  ⟨c10_unstarted_never_evicted.1 initQL,
   c10_unstarted_never_evicted.2 100 [⟨none, true, false⟩] ⟨none, true, false⟩
     (by decide) rfl⟩

/-!
Claim C2: the exponential slowdown law. Arithmetic helpers first.
-/

lemma natCast_ediv_pow (n N : ℕ) : ((n : ℤ)) / (2 : ℤ) ^ N = ((n / 2 ^ N : ℕ) : ℤ) := by
  rw [Int.natCast_div, Nat.cast_pow, Nat.cast_ofNat]

lemma ediv_two_pow (q : ℤ) (h : 0 ≤ q) (N : ℕ) : q / 2 / 2 ^ N = q / 2 ^ (N + 1) := by
  lift q to ℕ using h
  have h2 : ((q : ℤ)) / 2 = ((q / 2 : ℕ) : ℤ) := by
    rw [Int.natCast_div, Nat.cast_ofNat]
  rw [h2, natCast_ediv_pow, natCast_ediv_pow, Nat.div_div_eq_div_mul]
  congr 2
  ring

lemma fdiv_two_eq (q : ℤ) : Int.fdiv q 2 = q / 2 :=
  Int.fdiv_eq_ediv q (by omega)

lemma fdiv_pow_eq (q : ℤ) (N : ℕ) : Int.fdiv q (2 ^ N) = q / 2 ^ N :=
  Int.fdiv_eq_ediv q (by positivity)

lemma slowSpecStep_one (s : ℤ) : slowSpecStep (1, s) = (1, s) := by
  have h : ¬ (1 : ℤ) ≤ Int.fdiv 1 2 := by decide
  simp [slowSpecStep, h]

lemma slowSpec_one_fixed (N : ℕ) (s : ℤ) : slowSpec N (1, s) = (1, s) := by
  induction N with
  | zero => rfl
  | succ n ih =>
    show slowSpec n (slowSpecStep (1, s)) = (1, s)
    rw [slowSpecStep_one]
    exact ih

lemma slowSpec_queries (N : ℕ) : ∀ q s : ℤ, 1 ≤ q →
    (slowSpec N (q, s)).1 = max 1 (Int.fdiv q (2 ^ N)) := by
  induction N with
  | zero =>
    intro q s hq
    show q = max 1 (Int.fdiv q (2 ^ 0))
    rw [pow_zero, Int.fdiv_one, max_eq_right hq]
  | succ n ih =>
    intro q s hq
    show (slowSpec n (slowSpecStep (q, s))).1 = _
    rw [fdiv_pow_eq]
    by_cases h2 : 2 ≤ q
    · have hnq : 1 ≤ Int.fdiv q 2 := by
        rw [fdiv_two_eq]
        omega
      have hstep : slowSpecStep (q, s)
          = (Int.fdiv q 2, if 1 < s then Int.fdiv s 2 else 1) := by
        simp [slowSpecStep, hnq]
      rw [hstep, ih (Int.fdiv q 2) _ hnq, fdiv_pow_eq, fdiv_two_eq]
      rw [ediv_two_pow q (by omega) n]
    · have hq1 : q = 1 := by omega
      subst hq1
      rw [slowSpecStep_one, slowSpec_one_fixed]
      have hpow : (1 : ℤ) < 2 ^ (n + 1) := by
        have h1 : (0 : ℤ) < 2 ^ n := by positivity
        calc (1 : ℤ) < 2 * 2 ^ n := by omega
          _ = 2 ^ (n + 1) := by ring
      show (1 : ℤ) = max 1 ((1 : ℤ) / 2 ^ (n + 1))
      rw [Int.ediv_eq_zero_of_lt (by omega) hpow]
      simp

lemma slowdown_accept {st : QuotaLimiter} {l : Limit} (hcl : st.currentLimit = some l)
    (t : ℤ) (hq2 : 2 ≤ l.queries) (hs : 0 < l.seconds)
    (hcd : DELAY_AFTER_ERROR ≤ t - l.ts) :
    slowdown t st
      = { st with currentLimit := some ⟨Int.fdiv l.queries 2, (if 1 < l.seconds then Int.fdiv l.seconds 2 else 1), t⟩ } := by
  have hnq : ¬ Int.fdiv l.queries 2 ≤ 0 := by
    rw [fdiv_two_eq]
    omega
  have hns : ¬ (if 1 < l.seconds then Int.fdiv l.seconds 2 else 1) ≤ 0 := by
    split_ifs with h1s
    · rw [fdiv_two_eq]
      omega
    · omega
  have hcd2 : ¬ t - l.ts < DELAY_AFTER_ERROR := by omega
  simp only [slowdown, hcl, setLimit, if_neg hnq, if_neg hns, if_neg hcd2]

lemma slowdown_reject {st : QuotaLimiter} {l : Limit} (hcl : st.currentLimit = some l)
    (t : ℤ) (hq1 : l.queries = 1) (hs : 0 < l.seconds) :
    slowdown t st = st := by
  have hns : ¬ (if 1 < l.seconds then Int.fdiv l.seconds 2 else 1) ≤ 0 := by
    split_ifs with h1s
    · rw [fdiv_two_eq]
      omega
    · omega
  have hnq : Int.fdiv l.queries 2 ≤ 0 := by
    rw [hq1]
    decide
  simp only [slowdown, hcl, setLimit, if_neg hns, if_pos hnq]

lemma slowTrace_spec : ∀ (ts : List ℤ) (st : QuotaLimiter) (l : Limit),
    st.currentLimit = some l → 0 < l.queries → 0 < l.seconds →
    sepOKb st ts = true →
    ∃ τ : ℤ, (slowTrace ts st).currentLimit
      = some ⟨(slowSpec ts.length (l.queries, l.seconds)).1,
              (slowSpec ts.length (l.queries, l.seconds)).2, τ⟩ := by
  intro ts
  induction ts with
  | nil =>
    intro st l hcl hq hs _
    exact ⟨l.ts, by simpa [slowTrace, slowSpec] using hcl⟩
  | cons t rest ih =>
    intro st l hcl hq hs hsep
    simp only [sepOKb, hcl, Bool.and_eq_true, decide_eq_true_eq] at hsep
    obtain ⟨hsep1, hsep2⟩ := hsep
    show ∃ τ, (slowTrace rest (slowdown t st)).currentLimit = _
    by_cases h2 : 2 ≤ l.queries
    · have hnq : 1 ≤ Int.fdiv l.queries 2 := by
        rw [fdiv_two_eq]
        omega
      have hns : 0 < (if 1 < l.seconds then Int.fdiv l.seconds 2 else 1) := by
        split_ifs with h1s
        · rw [fdiv_two_eq]
          omega
        · omega
      have hacc := slowdown_accept hcl t h2 hs hsep1
      rw [hacc] at hsep2 ⊢
      obtain ⟨τ, hτ⟩ := ih _ ⟨Int.fdiv l.queries 2,
        (if 1 < l.seconds then Int.fdiv l.seconds 2 else 1), t⟩ rfl
        (show (0 : ℤ) < Int.fdiv l.queries 2 by omega) hns hsep2
      refine ⟨τ, ?_⟩
      rw [hτ]
      have hlen : slowSpec (t :: rest).length (l.queries, l.seconds)
          = slowSpec rest.length (Int.fdiv l.queries 2,
              (if 1 < l.seconds then Int.fdiv l.seconds 2 else 1)) := by
        show slowSpec rest.length (slowSpecStep (l.queries, l.seconds)) = _
        congr 1
        simp [slowSpecStep, hnq]
      rw [hlen]
    · have hq1 : l.queries = 1 := by omega
      have hrej : slowdown t st = st := slowdown_reject hcl t hq1 hs
      rw [hrej] at hsep2 ⊢
      obtain ⟨τ, hτ⟩ := ih st l hcl hq hs hsep2
      refine ⟨τ, ?_⟩
      rw [hτ]
      have hlen : slowSpec (t :: rest).length (l.queries, l.seconds)
          = slowSpec rest.length (l.queries, l.seconds) := by
        show slowSpec rest.length (slowSpecStep (l.queries, l.seconds)) = _
        congr 1
        rw [hq1]
        exact slowSpecStep_one l.seconds
      rw [hlen]

/-- C2 (amended): under the claim's separation discipline, after the
overload signals the stored limit is exactly `slowSpec` applied to the
starting pair — so `queries` does follow the claimed closed form
`max 1 (floor(q0 / 2^N))`, but `seconds` halves only on ACCEPTED steps: a
slowdown whose halved `queries` would be 0 is rejected wholesale by
`setLimit`, freezing `seconds` too (it is pinned at 1 only when it reaches
1 before `queries` does). -/
theorem c2_slowdown_amended :
    ∀ (ts : List ℤ) (st : QuotaLimiter) (l : Limit),
      st.currentLimit = some l → 0 < l.queries → 0 < l.seconds →
      sepOKb st ts = true →
      (∃ τ : ℤ, (slowTrace ts st).currentLimit
          = some ⟨(slowSpec ts.length (l.queries, l.seconds)).1,
                  (slowSpec ts.length (l.queries, l.seconds)).2, τ⟩) ∧
      (slowSpec ts.length (l.queries, l.seconds)).1
        = max 1 (Int.fdiv l.queries (2 ^ ts.length)) :=
  fun ts st l hcl hq hs hsep =>
    ⟨slowTrace_spec ts st l hcl hq hs hsep,
     slowSpec_queries ts.length l.queries l.seconds hq⟩

/-- C2 witness: starting from 8 queries per 8 seconds, four well-separated
overload signals leave the limit at the reference value, whose `queries`
component is `max 1 (floor(8 / 16)) = 1`. -/
theorem c2_witness :
    (∃ τ : ℤ, (slowTrace [5, 10, 15, 20] (runOps [Op.setInitialLimit 8 8 0])).currentLimit
        = some ⟨(slowSpec 4 (8, 8)).1, (slowSpec 4 (8, 8)).2, τ⟩) ∧
    (slowSpec 4 (8, 8)).1 = max 1 (Int.fdiv 8 (2 ^ 4)) :=
  c2_slowdown_amended [5, 10, 15, 20] (runOps [Op.setInitialLimit 8 8 0]) ⟨8, 8, 0⟩
    (by decide) (by decide) (by decide) (by decide)

/-- C2 counterexample: from the initial window (2 queries / 8 seconds),
two overload signals, each at least 5 seconds after the previous limit
change (times 5 and 10 with the initial stamp 0), leave the window at
`seconds = 4`: the second slowdown proposes 0 queries and is rejected
outright, so `seconds` never reaches the claimed
`max 1 (floor(8 / 2^2)) = 2`. -/
theorem c2_counterexample :
    sepOKb (runOps [Op.setInitialLimit 2 8 0]) [5, 10] = true ∧
    (runOps [Op.setInitialLimit 2 8 0, Op.slowdown 5, Op.slowdown 10]).currentLimit
      = some ⟨1, 4, 5⟩ ∧
    ¬ (4 : ℤ) = max 1 (Int.fdiv 8 (2 ^ 2)) := by
  decide

/-!
Claim C1: the admission caps of `handleQueue`.
-/

lemma startedWithin_cons (now sec : ℤ) (j : Job) (rest : List Job) :
    startedWithin now sec (j :: rest)
      = (if inWindow now sec j = true then 1 else 0) + startedWithin now sec rest := by
  simp only [startedWithin, List.filter_cons]
  split_ifs <;> simp <;> omega

lemma startFirst_startedWithin (now sec : ℤ) : ∀ (jobs jobs2 : List Job),
    startFirst now jobs = some jobs2 →
    startedWithin now sec jobs2 ≤ startedWithin now sec jobs + 1 := by
  intro jobs
  induction jobs with
  | nil =>
    intro jobs2 h
    simp [startFirst] at h
  | cons j rest ih =>
    intro jobs2 h
    rw [startFirst] at h
    by_cases hj : (j.ts.isNone && j.hasFunc) = true
    · rw [if_pos hj] at h
      injection h with h2
      subst h2
      rw [startedWithin_cons, startedWithin_cons]
      split_ifs <;> omega
    · rw [if_neg hj] at h
      cases hrec : startFirst now rest with
      | none =>
        rw [hrec] at h
        simp at h
      | some r2 =>
        rw [hrec] at h
        simp only [Option.map, Option.some.injEq] at h
        subst h
        have hr := ih r2 hrec
        rw [startedWithin_cons, startedWithin_cons]
        split_ifs <;> omega

lemma admitLoop_bounds (now sec : ℤ) : ∀ (fuel : ℕ) (jobs : List Job) (r : ℕ),
    (admitLoop now fuel jobs r).2 ≤ r + fuel ∧
    startedWithin now sec (admitLoop now fuel jobs r).1
      ≤ startedWithin now sec jobs + fuel := by
  intro fuel
  induction fuel with
  | zero =>
    intro jobs r
    exact ⟨Nat.le_refl _, Nat.le_refl _⟩
  | succ n ih =>
    intro jobs r
    rw [show admitLoop now (n + 1) jobs r
        = (match startFirst now jobs with
           | none => (jobs, r)
           | some j2 => admitLoop now n j2 (r + 1)) from rfl]
    cases hsf : startFirst now jobs with
    | none =>
      exact ⟨show r ≤ r + (n + 1) by omega,
             show startedWithin now sec jobs ≤ startedWithin now sec jobs + (n + 1) by omega⟩
    | some jobs2 =>
      obtain ⟨h1, h2⟩ := ih jobs2 (r + 1)
      have h3 := startFirst_startedWithin now sec jobs jobs2 hsf
      exact ⟨show (admitLoop now n jobs2 (r + 1)).2 ≤ r + (n + 1) by omega,
             show startedWithin now sec (admitLoop now n jobs2 (r + 1)).1
                 ≤ startedWithin now sec jobs + (n + 1) by omega⟩

lemma removeOlderThan_startedWithin (now sec m : ℤ) (jobs : List Job) :
    startedWithin now sec (removeOlderThan m jobs) ≤ startedWithin now sec jobs :=
  List.Sublist.length_le (List.Sublist.filter _ (List.filter_sublist jobs))

lemma avail_bounds (now : ℤ) (l : Limit) (jobs : List Job) :
    calculateAvailableQuota now l jobs ≤ (CONCURRENCY : ℤ) ∧
    calculateAvailableQuota now l jobs
      ≤ l.queries - (startedWithin now l.seconds jobs : ℤ) := by
  simp only [calculateAvailableQuota]
  split_ifs with h
  · exact ⟨by omega, by omega⟩
  · exact ⟨by omega, by omega⟩

/-- C1 (amended): a scheduling tick admits nothing when STRICTLY more than
`CONCURRENCY` jobs are running (so the skip threshold is 17, not 16, and a
tick may start up to `CONCURRENCY` more jobs on top of the `CONCURRENCY`
already running — `running` is only bounded by `2 * CONCURRENCY` across a
tick); and the count of jobs started within the current window never ends
a tick above `max(its value before the tick, maxOperations)`. -/
theorem c1_admission_caps :
    ∀ (st : QuotaLimiter) (now : ℤ),
      (CONCURRENCY < st.running → handleQueue now st = st) ∧
      ((handleQueue now st).running ≤ st.running + CONCURRENCY) ∧
      (∀ l : Limit, st.currentLimit = some l →
        ((startedWithin now l.seconds (handleQueue now st).jobs : ℤ)
          ≤ max ((startedWithin now l.seconds st.jobs : ℤ)) l.queries)) := by
  intro st now
  by_cases h1 : CONCURRENCY < st.running
  · have hskip : handleQueue now st = st := by
      unfold handleQueue
      rw [if_pos h1]
    refine ⟨fun _ => hskip, ?_, ?_⟩
    · rw [hskip]
      omega
    · intro l _
      rw [hskip]
      exact le_max_left _ _
  · cases hcl : st.currentLimit with
    | none =>
      have hid : handleQueue now st = st := by
        simp only [handleQueue, hcl]
        rw [if_neg h1]
      refine ⟨fun hc => absurd hc h1, by rw [hid]; omega, ?_⟩
      intro l hl
      exact absurd hl (by simp)
    | some l =>
      by_cases h2 : now - l.ts < DELAY_AFTER_ERROR
      · have hid : handleQueue now st = st := by
          simp only [handleQueue, hcl]
          rw [if_neg h1, if_pos h2]
        refine ⟨fun hc => absurd hc h1, by rw [hid]; omega, ?_⟩
        intro l' hl'
        rw [hid]
        exact le_max_left _ _
      · have hmain : handleQueue now st
            = { st with
                jobs := (admitLoop now
                  (calculateAvailableQuota now l
                    (removeOlderThan (now - l.seconds) st.jobs)).toNat
                  (removeOlderThan (now - l.seconds) st.jobs) st.running).1,
                running := (admitLoop now
                  (calculateAvailableQuota now l
                    (removeOlderThan (now - l.seconds) st.jobs)).toNat
                  (removeOlderThan (now - l.seconds) st.jobs) st.running).2 } := by
          simp only [handleQueue, hcl]
          rw [if_neg h1, if_neg h2]
        refine ⟨fun hc => absurd hc h1, ?_, ?_⟩
        · rw [hmain]
          have hb := (admitLoop_bounds now l.seconds
            (calculateAvailableQuota now l
              (removeOlderThan (now - l.seconds) st.jobs)).toNat
            (removeOlderThan (now - l.seconds) st.jobs) st.running).1
          have hA16 := (avail_bounds now l (removeOlderThan (now - l.seconds) st.jobs)).1
          have hc16 : ((CONCURRENCY : ℕ) : ℤ) = 16 := rfl
          show (admitLoop now _ _ st.running).2 ≤ st.running + CONCURRENCY
          have hcn : CONCURRENCY = 16 := rfl
          omega
        · intro l' hl'
          have hll : l' = l := by
            injection hl' with h3
            exact h3.symm
          subst hll
          rw [hmain]
          have hb := (admitLoop_bounds now l'.seconds
            (calculateAvailableQuota now l'
              (removeOlderThan (now - l'.seconds) st.jobs)).toNat
            (removeOlderThan (now - l'.seconds) st.jobs) st.running).2
          have hrm := removeOlderThan_startedWithin now l'.seconds (now - l'.seconds) st.jobs
          have hsub := (avail_bounds now l' (removeOlderThan (now - l'.seconds) st.jobs)).2
          show ((startedWithin now l'.seconds (admitLoop now _ _ st.running).1 : ℤ) ≤ _)
          rcases le_or_lt (calculateAvailableQuota now l'
              (removeOlderThan (now - l'.seconds) st.jobs)) 0 with hA0 | hA0
          · exact le_max_iff.mpr (Or.inl (by omega))
          · exact le_max_iff.mpr (Or.inr (by omega))

/-- C1 counterexample: with the limit 17-per-10 and 17 submitted jobs, the
tick at time 5 starts 16 jobs (16 now running), and the tick at time 6 —
with exactly `CONCURRENCY = 16` jobs already running — still admits the
17th job, pushing `running` to 17: the tick DOES admit when 16 jobs are
already running, and the concurrent count exceeds 16. -/
theorem c1_counterexample :
    (runOps ([Op.setInitialLimit 17 10 0]
      ++ List.replicate 17 Op.addJob ++ [Op.tick 5])).running = 16 ∧
    (runOps ([Op.setInitialLimit 17 10 0]
      ++ List.replicate 17 Op.addJob ++ [Op.tick 5, Op.tick 6])).running = 17 := by
  decide

/-- C1 witness at a concrete over-ceiling state: a tick with 20 running
jobs is skipped, the running bound holds, and the window-count bound holds
for the stored limit. -/
theorem c1_witness :
    handleQueue 7 (⟨[], 20, some ⟨10, 10, 0⟩, none⟩ : QuotaLimiter)
      = (⟨[], 20, some ⟨10, 10, 0⟩, none⟩ : QuotaLimiter) ∧
    (handleQueue 7 (⟨[], 20, some ⟨10, 10, 0⟩, none⟩ : QuotaLimiter)).running
      ≤ 20 + CONCURRENCY ∧
    ((startedWithin 7 10
        (handleQueue 7 (⟨[], 20, some ⟨10, 10, 0⟩, none⟩ : QuotaLimiter)).jobs : ℤ)
      ≤ max ((startedWithin 7 10 ([] : List Job) : ℤ)) 10) :=
  ⟨(c1_admission_caps ⟨[], 20, some ⟨10, 10, 0⟩, none⟩ 7).1 (by decide),
   (c1_admission_caps ⟨[], 20, some ⟨10, 10, 0⟩, none⟩ 7).2.1,
   (c1_admission_caps ⟨[], 20, some ⟨10, 10, 0⟩, none⟩ 7).2.2 ⟨10, 10, 0⟩ rfl⟩

/-!
Claims C6 and C7: the retry orchestrator pass.
-/

lemma applyEff_of_not_mem (i : ℕ) : ∀ (effects : List (ℕ × Bool)) (d : Bool),
    (∀ e ∈ effects, ¬ e.1 = i) → applyEff i d effects = d := by
  intro effects
  induction effects with
  | nil => intro d _; rfl
  | cons e es ih =>
    intro d h
    rw [applyEff, if_neg (h e (List.mem_cons_self e es))]
    exact ih d fun e2 he2 => h e2 (List.mem_cons_of_mem e he2)

lemma settleAll_eq_map : ∀ (effects : List (ℕ × Bool)) (store : List GFile),
    settleAll store effects
      = store.map (fun g => { g with dirty := applyEff g.id g.dirty effects }) := by
  intro effects
  induction effects with
  | nil =>
    intro store
    show store = store.map (fun g => { g with dirty := g.dirty })
    exact (List.map_id store).symm
  | cons e es ih =>
    intro store
    show settleAll (setDirtyFlag e.1 e.2 store) es = _
    rw [ih (setDirtyFlag e.1 e.2 store), setDirtyFlag, List.map_map]
    apply List.map_congr_left
    intro g _
    by_cases hgi : g.id = e.1
    · show (fun g => { g with dirty := applyEff g.id g.dirty es })
          (if g.id = e.1 then { g with dirty := e.2 } else g)
        = { g with dirty := applyEff g.id (if e.1 = g.id then e.2 else g.dirty) es }
      rw [if_pos hgi, if_pos hgi.symm]
    · show (fun g => { g with dirty := applyEff g.id g.dirty es })
          (if g.id = e.1 then { g with dirty := e.2 } else g)
        = { g with dirty := applyEff g.id (if e.1 = g.id then e.2 else g.dirty) es }
      rw [if_neg hgi, if_neg (fun hEq => hgi hEq.symm)]

lemma jobEffect_id (oc : ℕ → Bool) (f : GFile) (e : ℕ × Bool)
    (h : jobEffect oc f = some e) : e.1 = f.id := by
  cases f with
  | mk i m sz d =>
    show e.1 = i
    cases m <;> simp only [jobEffect] at h <;> try split_ifs at h
    all_goals
      first
      | (injection h with h2; rw [← h2])
      | exact Option.noConfusion h

lemma jobEffect_oc_point (oc : ℕ → Bool) (f : GFile) :
    jobEffect oc f = jobEffect (fun _ => oc f.id) f := by
  unfold jobEffect
  cases f.mimeType <;> rfl

lemma applyEff_filterMap (oc : ℕ → Bool) : ∀ (L : List GFile) (f : GFile) (d : Bool),
    (L.map (fun g => g.id)).Nodup → f ∈ L →
    applyEff f.id d (L.filterMap (jobEffect oc))
      = (match jobEffect oc f with | some e => e.2 | none => d) := by
  intro L
  induction L with
  | nil =>
    intro f d _ hf
    simp at hf
  | cons g rest ih =>
    intro f d hnd hf
    rw [List.filterMap_cons]
    rcases List.mem_cons.mp hf with rfl | hfr
    · have hrest : ∀ e ∈ rest.filterMap (jobEffect oc), ¬ e.1 = f.id := by
        intro e he hEq
        obtain ⟨g2, hg2, hje⟩ := List.mem_filterMap.mp he
        have he1 : e.1 = g2.id := jobEffect_id oc g2 e hje
        simp only [List.map_cons, List.nodup_cons] at hnd
        refine hnd.1 ?_
        rw [← hEq, he1]
        exact List.mem_map_of_mem _ hg2
      cases hje : jobEffect oc f with
      | none => exact applyEff_of_not_mem f.id _ d hrest
      | some e =>
        rw [applyEff]
        have he1 : e.1 = f.id := jobEffect_id oc f e hje
        rw [if_pos he1, applyEff_of_not_mem f.id _ e.2 hrest]
    · have hgid : ¬ g.id = f.id := by
        simp only [List.map_cons, List.nodup_cons] at hnd
        intro hEq
        refine hnd.1 ?_
        rw [hEq]
        exact List.mem_map_of_mem _ hfr
      have hnd2 : (rest.map (fun x => x.id)).Nodup := by
        simp only [List.map_cons, List.nodup_cons] at hnd
        exact hnd.2
      cases hje : jobEffect oc g with
      | none => exact ih f d hnd2 hfr
      | some e =>
        rw [applyEff]
        have he1 : e.1 = g.id := jobEffect_id oc g e hje
        rw [if_neg (by rw [he1]; exact hgid)]
        exact ih f d hnd2 hfr

lemma dirtyFlag_fate (files : List GFile) (oc : ℕ → Bool) (f : GFile)
    (hnd : (files.map (fun g => g.id)).Nodup) (hf : f ∈ files) :
    applyEff f.id f.dirty ((files.filter (fun g => g.dirty)).filterMap (jobEffect oc))
      = fate f (oc f.id) := by
  by_cases hd : f.dirty = true
  · have hfL : f ∈ files.filter (fun g => g.dirty) := List.mem_filter.mpr ⟨hf, hd⟩
    have hndL : ((files.filter (fun g => g.dirty)).map (fun g => g.id)).Nodup :=
      List.Nodup.sublist (List.Sublist.map _ (List.filter_sublist files)) hnd
    rw [applyEff_filterMap oc _ f f.dirty hndL hfL]
    rw [fate, if_pos hd, ← jobEffect_oc_point]
  · have hno : ∀ e ∈ (files.filter (fun g => g.dirty)).filterMap (jobEffect oc),
        ¬ e.1 = f.id := by
      intro e he hEq
      obtain ⟨g2, hg2, hje⟩ := List.mem_filterMap.mp he
      obtain ⟨hg2f, hg2d⟩ := List.mem_filter.mp hg2
      have he1 : e.1 = g2.id := jobEffect_id oc g2 e hje
      have hgf : g2 = f := by
        refine List.inj_on_of_nodup_map hnd hg2f hf ?_
        show g2.id = f.id
        rw [← he1, hEq]
      rw [hgf] at hg2d
      exact hd hg2d
    rw [applyEff_of_not_mem f.id _ f.dirty hno, fate, if_neg hd]

lemma find?_id_self : ∀ (files : List GFile) (f : GFile),
    (files.map (fun g => g.id)).Nodup → f ∈ files →
    files.find? (fun g => g.id = f.id) = some f := by
  intro files
  induction files with
  | nil =>
    intro f _ hf
    simp at hf
  | cons g rest ih =>
    intro f hnd hf
    rcases List.mem_cons.mp hf with rfl | hfr
    · exact List.find?_cons_of_pos rest (by simp)
    · have hgid : ¬ g.id = f.id := by
        simp only [List.map_cons, List.nodup_cons] at hnd
        intro hEq
        refine hnd.1 ?_
        rw [hEq]
        exact List.mem_map_of_mem _ hfr
      rw [List.find?_cons_of_neg rest (by simp [hgid])]
      have hnd2 : (rest.map (fun x => x.id)).Nodup := by
        simp only [List.map_cons, List.nodup_cons] at hnd
        exact hnd.2
      exact ih f hnd2 hfr

lemma handleDirty_getFlag (files : List GFile) (oc : ℕ → Bool) (f : GFile)
    (hnd : (files.map (fun g => g.id)).Nodup) (hf : f ∈ files) :
    getFlag f.id (handleDirtyFiles files oc).1 = some (fate f (oc f.id)) := by
  show getFlag f.id
      (settleAll files ((files.filter (fun g => g.dirty)).filterMap (jobEffect oc))) = _
  rw [settleAll_eq_map]
  unfold getFlag
  rw [List.find?_map]
  have hcomp : ((fun g : GFile => decide (g.id = f.id)) ∘
        (fun g : GFile => { g with
          dirty := applyEff g.id g.dirty
            ((files.filter (fun g => g.dirty)).filterMap (jobEffect oc)) }))
      = (fun g : GFile => decide (g.id = f.id)) := funext fun g => rfl
  rw [hcomp, find?_id_self files f hnd hf, Option.map_some', Option.map_some']
  rw [dirtyFlag_fate files oc f hnd hf]

/-- C6: in one orchestrator pass, each file's final dirty state is a
function of that file and its OWN outcome alone — sibling jobs' failures
can neither prevent the file's job from running nor change its result
(`Promise.allSettled` waits for every promise and never rejects); and a
dirty file of an attempted category whose own download fails ends the pass
dirty again, so it reappears in the next pass. -/
theorem c6_failure_isolation :
    ∀ (files : List GFile) (oc1 oc2 : ℕ → Bool) (f : GFile),
      (files.map (fun g => g.id)).Nodup → f ∈ files → oc1 f.id = oc2 f.id →
      getFlag f.id (handleDirtyFiles files oc1).1
        = getFlag f.id (handleDirtyFiles files oc2).1 ∧
      getFlag f.id (handleDirtyFiles files oc1).1 = some (fate f (oc1 f.id)) ∧
      (f.dirty = true →
        (f.mimeType = GMime.drawing ∨ f.mimeType = GMime.document ∨
          (f.mimeType = GMime.other ∧ f.hasSize = true)) →
        fate f false = true) := by
  intro files oc1 oc2 f hnd hf hoc
  refine ⟨?_, handleDirty_getFlag files oc1 f hnd hf, ?_⟩
  · rw [handleDirty_getFlag files oc1 f hnd hf, handleDirty_getFlag files oc2 f hnd hf,
      hoc]
  · intro hd hm
    rcases hm with hm | hm | ⟨hm, hsz⟩
    · simp [fate, jobEffect, hm, hd]
    · simp [fate, jobEffect, hm, hd]
    · simp [fate, jobEffect, hm, hd, hsz]

/-- C6 witness: two dirty documents; file 1's download fails while file
2's succeeds — file 2 still completes (ends clean) regardless, and the
failing document stays dirty. -/
theorem c6_witness :
    getFlag 2 (handleDirtyFiles
        [⟨1, GMime.document, true, true⟩, ⟨2, GMime.document, true, true⟩]
        (fun i => decide (i = 2))).1
      = some (fate ⟨2, GMime.document, true, true⟩
          ((fun i => decide (i = 2)) 2)) ∧
    fate (⟨1, GMime.document, true, true⟩ : GFile) false = true := by
  refine ⟨?_, ?_⟩
  · exact (c6_failure_isolation
      [⟨1, GMime.document, true, true⟩, ⟨2, GMime.document, true, true⟩]
      (fun i => decide (i = 2)) (fun i => decide (i = 2))
      ⟨2, GMime.document, true, true⟩ (by decide) (by decide) rfl).2.1
  · exact (c6_failure_isolation
      [⟨1, GMime.document, true, true⟩, ⟨2, GMime.document, true, true⟩]
      (fun i => decide (i = 2)) (fun i => decide (i = 2))
      ⟨1, GMime.document, true, true⟩ (by decide) (by decide) rfl).2.2 rfl
      (Or.inr (Or.inl rfl))

/-- C7: a pass emits exactly one completion signal (the return type has
exactly the two constructors, and `retryAsync` models the
`process.nextTick`-deferred `download:retry` emission), and the signal is
`clean` precisely when, after the batch settles, no file remains dirty —
equivalently, every file's own fate under its own outcome is clean. -/
theorem c7_completion_signal :
    ∀ (files : List GFile) (oc : ℕ → Bool),
      (files.map (fun g => g.id)).Nodup →
      (((handleDirtyFiles files oc).2 = Signal.clean)
        ↔ ∀ f ∈ files, fate f (oc f.id) = false) := by
  intro files oc hnd
  have hsig : (handleDirtyFiles files oc).2
      = if 0 < ((handleDirtyFiles files oc).1.filter (fun g => g.dirty)).length
        then Signal.retryAsync else Signal.clean := rfl
  have hstore : (handleDirtyFiles files oc).1
      = files.map (fun g => { g with dirty := applyEff g.id g.dirty ((files.filter (fun g => g.dirty)).filterMap (jobEffect oc)) }) :=
    settleAll_eq_map _ _
  constructor
  · intro hclean f hf
    by_contra hft
    have hft2 : fate f (oc f.id) = true := by
      cases hfa : fate f (oc f.id)
      · exact absurd hfa hft
      · rfl
    have hmem : ({ f with dirty := applyEff f.id f.dirty ((files.filter (fun g => g.dirty)).filterMap (jobEffect oc)) } : GFile)
        ∈ (handleDirtyFiles files oc).1.filter (fun g => g.dirty) := by
      rw [hstore]
      refine List.mem_filter.mpr ⟨List.mem_map_of_mem _ hf, ?_⟩
      show applyEff f.id f.dirty
        ((files.filter (fun g => g.dirty)).filterMap (jobEffect oc)) = true
      rw [dirtyFlag_fate files oc f hnd hf]
      exact hft2
    have hpos : 0 < ((handleDirtyFiles files oc).1.filter (fun g => g.dirty)).length :=
      List.length_pos.mpr (List.ne_nil_of_mem hmem)
    rw [hsig, if_pos hpos] at hclean
    exact Signal.noConfusion hclean
  · intro hall
    have hnil : (handleDirtyFiles files oc).1.filter (fun g => g.dirty) = [] := by
      rw [hstore]
      refine List.filter_eq_nil_iff.mpr ?_
      intro a ha
      obtain ⟨g0, hg0, hg0e⟩ := List.mem_map.mp ha
      rw [← hg0e]
      show ¬ ({ g0 with dirty := applyEff g0.id g0.dirty ((files.filter (fun g => g.dirty)).filterMap (jobEffect oc)) } : GFile).dirty = true
      show ¬ applyEff g0.id g0.dirty
        ((files.filter (fun g => g.dirty)).filterMap (jobEffect oc)) = true
      rw [dirtyFlag_fate files oc g0 hnd hg0, hall g0 hg0]
      simp
    rw [hsig, hnil]
    rfl

/-- C7 witness: one dirty document that downloads successfully yields the
`clean` signal. -/
theorem c7_witness :
    (handleDirtyFiles [⟨1, GMime.document, true, true⟩] (fun _ => true)).2
      = Signal.clean :=
  (c7_completion_signal [⟨1, GMime.document, true, true⟩] (fun _ => true)
    (by decide)).mpr (by decide)

end WikiGDrive
